import Mathlib

/-!
# Verification of the sv4git monorepo versioning core

A shallow embedding of the monorepo baseline-resolution and
document-path-navigation engine of sv4git:

* `sv/monorepo.go` — path expression parsing (`parsePath`), document tree
  navigation (`getByPath`, `setByPath`), component discovery
  (`FindComponents`), version reading/writing (`ReadVersionFromBytes`,
  `readVersionFromFile`, `writeVersionToFile`, `UpdateVersion`).
* `cmd/git-sv/handlers.go` — the three-tier baseline resolver
  (`componentBaseVersionAndCommits`), the tag-flow commit range
  (`componentCommits`), and the per-component bodies of
  `monorepoUpdateVersionHandler` and `monorepoTagHandler`.

External collaborators (the repository-history interface, the byte-level
YAML/JSON codec, `filepath` helpers for slash-separated paths, and the
semantic-version value / bump resolver that live outside the given
sources) are modelled explicitly; each such definition carries a doc
comment saying what it models.
-/

namespace SvGit

/-! ## Semantic version values -/

/-- Modelled from the spec: the Semantic Version value (§3, §4.1) —
`{major, minor, patch, optional pre-release, optional build metadata,
original literal string}`; the implementation (`sv.ToVersion`, the
Masterminds semver type) is not among the given sources. An empty `pre`
or `build` string means the part is absent. -/
structure VersionS where
  major : Nat
  minor : Nat
  patch : Nat
  pre : String
  build : String
  original : String
  deriving Repr, DecidableEq

/-- Modelled from the spec (§3): version equality compares major, minor,
patch and pre-release and ignores build metadata and the original
literal string. -/
def versionEqB (a b : VersionS) : Bool :=
  a.major == b.major && a.minor == b.minor && a.patch == b.patch && a.pre == b.pre

/-- Equality lifted to nullable versions (Go `*semver.Version`). -/
def versionOptEqB : Option VersionS → Option VersionS → Bool
  | some a, some b => versionEqB a b
  | none, none => true
  | _, _ => false

/-- Digits of a natural number, most significant first (helper for
rendering versions). -/
def natDigits (n : Nat) : List Char :=
  (Nat.toDigits 10 n)

/-- Render a `Nat` in decimal. -/
def natToStr (n : Nat) : String :=
  (natDigits n).asString

/-- Parse a non-empty all-digit character list as a `Nat`. -/
def parseNatChars : List Char → Option Nat
  | [] => none
  | cs => go cs 0
where
  go : List Char → Nat → Option Nat
    | [], acc => some acc
    | c :: rest, acc =>
      if c.isDigit then go rest (acc * 10 + (c.toNat - '0'.toNat)) else none

/-- Split a character list at the first occurrence of `sep`; returns the
part before and the part after (separator dropped), or `none` when the
separator does not occur. -/
def splitFirst (sep : Char) : List Char → Option (List Char × List Char)
  | [] => none
  | c :: rest =>
    if c = sep then some ([], rest)
    else (splitFirst sep rest).map (fun p => (c :: p.1, p.2))

/-- Modelled from the spec (§4.1): `sv.ToVersion` / semantic version
parsing — not among the given sources. Accepts `major.minor.patch`
with numeric parts, an optional leading `v` (component-scoped tag names
embed `v<semver>` per §6 and tier 1 parses the tag's base name), an
optional `-pre-release` and an optional `+build` suffix; anything else
fails. `original` keeps the exact input text. -/
def toVersion (s : String) : Except String VersionS :=
  let cs := s.toList
  let core := match cs with
    | 'v' :: rest => rest
    | _ => cs
  let (noBuild, build) := match splitFirst '+' core with
    | none => (core, ([] : List Char))
    | some (a, b) => (a, b)
  let (nums, pre) := match splitFirst '-' noBuild with
    | none => (noBuild, ([] : List Char))
    | some (a, b) => (a, b)
  match splitFirst '.' nums with
  | none => .error "invalid semver"
  | some (maj, rest1) =>
    match splitFirst '.' rest1 with
    | none => .error "invalid semver"
    | some (min, pat) =>
      match parseNatChars maj, parseNatChars min, parseNatChars pat with
      | some ma, some mi, some pa =>
        .ok ⟨ma, mi, pa, pre.asString, build.asString, s⟩
      | _, _, _ => .error "invalid semver"

/-! ## Commit classification and bump resolution -/

/-- Modelled from the spec (§4.2): the bump category a history entry
classifies as under the configured rules. -/
inductive BumpCat where
  | noneCat
  | patchCat
  | minorCat
  | majorCat
  deriving Repr, DecidableEq

/-- Severity rank of a bump category. -/
def BumpCat.rank : BumpCat → Nat
  | .noneCat => 0
  | .patchCat => 1
  | .minorCat => 2
  | .majorCat => 3

/-- The higher-severity of two bump categories. -/
def BumpCat.sup (a b : BumpCat) : BumpCat :=
  if a.rank ≤ b.rank then b else a

/-- Modelled from the spec (§3): a history entry as the bump resolver
sees it; `bump` is the category its parsed type/scope/breaking-flag maps
to under the configured classification rules (the classifier itself is
an external collaborator here). -/
structure GitCommitLog where
  hash : String
  bump : BumpCat
  deriving Repr, DecidableEq

/-- Modelled from the spec (§4.2): which field a bump category
increments — major resets minor and patch to 0, minor resets patch to 0,
patch increments only patch; the result's pre-release and build metadata
are cleared and its literal is the canonical `major.minor.patch`. -/
def applyBump (cat : BumpCat) (v : VersionS) : VersionS :=
  let (ma, mi, pa) := match cat with
    | .majorCat => (v.major + 1, 0, 0)
    | .minorCat => (v.major, v.minor + 1, 0)
    | .patchCat => (v.major, v.minor, v.patch + 1)
    | .noneCat => (v.major, v.minor, v.patch)
  ⟨ma, mi, pa, "", "", natToStr ma ++ "." ++ natToStr mi ++ "." ++ natToStr pa⟩

/-- Highest-severity classification across a list of entries. -/
def highestBump (commits : List GitCommitLog) : BumpCat :=
  commits.foldl (fun acc c => acc.sup c.bump) .noneCat

/-- Modelled from the spec (§4.2): the Bump Resolver
`SemVerCommitsProcessor.NextVersion` (not among the given sources).
Returns `(nextVersion, changed)`: `changed = false` and
`nextVersion = base` when no entry classifies above "none"; otherwise
the single highest-severity classification determines the increment.
A `none` base (Go nil pointer) is passed through unchanged. -/
def semverNextVersion (base : Option VersionS) (commits : List GitCommitLog) :
    Option VersionS × Bool :=
  let cat := highestBump commits
  if cat = .noneCat then (base, false)
  else (base.map (applyBump cat), true)

/-! ## Document trees (`map[string]interface{}` values) -/

/-- A decoded document value (Go `interface{}` after YAML/JSON
unmarshalling): a string, some other scalar (number / bool / null /
array, which the navigator treats uniformly as "not a string and not a
map"), or a nested mapping encoded as an association list of key/value
pairs (Go map keys are unique; lookups take the first occurrence). -/
inductive DocValue where
  | str : String → DocValue
  | num : Int → DocValue
  | boolean : Bool → DocValue
  | nullv : DocValue
  | map : List (String × DocValue) → DocValue

/-- A document tree: the top-level `map[string]interface{}`. -/
abbrev DocMap := List (String × DocValue)

/-- Association-list lookup (Go `data[key]`, first occurrence wins). -/
def docLookup (data : DocMap) (key : String) : Option DocValue :=
  match data with
  | [] => none
  | (k, v) :: rest => if k = key then some v else docLookup rest key

/-- Association-list update of the first occurrence of `key` (Go
`data[key] = value` on a key that is present). -/
def docUpdate (data : DocMap) (key : String) (value : DocValue) : DocMap :=
  match data with
  | [] => []
  | (k, v) :: rest =>
    if k = key then (k, value) :: rest else (k, v) :: docUpdate rest key value

/-! ## Path expression parsing (`parsePath`, monorepo.go:597) -/

/-- Errors raised by `parsePath` (monorepo.go), one constructor per
distinct `fmt.Errorf` site. -/
inductive ParseErr where
  | emptyPath
  | unexpectedEndAfterBracket
  | expectedQuoteAfterBracket
  | unclosedString
  | expectedCloseBracket
  | noSegments
  deriving Repr, DecidableEq

/-- The parser's position inside the `parsePath` scanning loop
(monorepo.go:611-657): scanning a plain segment, just after `[`, inside
a quoted literal opened with quote character `q`, just after the
closing quote, or just after the closing `]` (where one `.` is
skipped). -/
inductive PMode where
  | plain
  | afterOpen
  | inQuote (q : Char)
  | afterQuote
  | afterBracket
  deriving Repr, DecidableEq

/-- The character-by-character scanning loop of `parsePath`
(monorepo.go:611-657). `cur` is the `current` builder (characters in
order), `acc` the segments collected so far. -/
def parseLoop : List Char → PMode → List Char → List String →
    Except ParseErr (List String)
  | [], mode, cur, acc =>
    match mode with
    | .plain => .ok (if cur.isEmpty then acc else acc ++ [cur.asString])
    | .afterOpen => .error .unexpectedEndAfterBracket
    | .inQuote _ => .error .unclosedString
    | .afterQuote => .error .expectedCloseBracket
    | .afterBracket => .ok (if cur.isEmpty then acc else acc ++ [cur.asString])
  | c :: rest, mode, cur, acc =>
    match mode with
    | .plain =>
      if c = '.' then
        parseLoop rest .plain []
          (if cur.isEmpty then acc else acc ++ [cur.asString])
      else if c = '[' then
        parseLoop rest .afterOpen []
          (if cur.isEmpty then acc else acc ++ [cur.asString])
      else
        parseLoop rest .plain (cur ++ [c]) acc
    | .afterOpen =>
      if c = '"' ∨ c = '\'' then parseLoop rest (.inQuote c) cur acc
      else .error .expectedQuoteAfterBracket
    | .inQuote q =>
      if c = q then parseLoop rest .afterQuote cur acc
      else parseLoop rest (.inQuote q) (cur ++ [c]) acc
    | .afterQuote =>
      if c = ']' then parseLoop rest .afterBracket [] (acc ++ [cur.asString])
      else .error .expectedCloseBracket
    | .afterBracket =>
      if c = '.' then parseLoop rest .plain cur acc
      else if c = '[' then parseLoop rest .afterOpen cur acc
      else parseLoop rest .plain (cur ++ [c]) acc

/-- The tail of `parsePath` after the scanning loop
(monorepo.go:659-665): a pending segment was already flushed by the
loop's end-of-input case; an empty segment list is an error. -/
def parsePathPost : Except ParseErr (List String) → Except ParseErr (List String)
  | .error e => .error e
  | .ok segs => if segs.isEmpty then .error .noSegments else .ok segs

/-- `parsePath` (monorepo.go:597-666): parses a jq/yq-style path
expression into key segments. An optional single leading `.` is
stripped before the scan (monorepo.go:607-609). -/
def parsePath (path : String) : Except ParseErr (List String) :=
  if path = "" then .error .emptyPath
  else
    let cs := path.toList
    parsePathPost
      (parseLoop (if cs.head? = some '.' then cs.tail else cs) .plain [] [])

/-! ## Tree navigation (`getByPath`, `setByPath`, monorepo.go:668-708) -/

/-- Errors raised by `getByPath` / `setByPath`, one constructor per
`fmt.Errorf` site; the key argument records the `%q` segment. -/
inductive PathErr where
  | emptyPath
  | keyNotFound (key : String)
  | notAMap (key : String)
  deriving Repr, DecidableEq

/-- `getByPath` (monorepo.go:668-685): navigate a nested map with
pre-parsed key segments; a missing key is `keyNotFound`, an
intermediate value that is not a mapping is `notAMap`, and the leaf
value is returned as-is. -/
def getByPath : DocMap → List String → Except PathErr DocValue
  | _, [] => .error .emptyPath
  | data, [s] =>
    match docLookup data s with
    | none => .error (.keyNotFound s)
    | some val => .ok val
  | data, s :: r :: rs =>
    match docLookup data s with
    | none => .error (.keyNotFound s)
    | some (.map nested) => getByPath nested (r :: rs)
    | some _ => .error (.notAMap s)

/-- `setByPath` (monorepo.go:687-708): set a string value in a nested
map. Go mutates the shared map in place; the embedding returns the map
the mutation leaves behind together with an optional error, so the
returned tree is meaningful on the error paths too (where Go performed
no assignment). -/
def setByPath : DocMap → List String → String → DocMap × Option PathErr
  | data, [], _ => (data, some .emptyPath)
  | data, [s], value =>
    match docLookup data s with
    | none => (data, some (.keyNotFound s))
    | some _ => (docUpdate data s (.str value), none)
  | data, s :: r :: rs, value =>
    match docLookup data s with
    | none => (data, some (.keyNotFound s))
    | some (.map nested) =>
      (docUpdate data s (.map (setByPath nested (r :: rs) value).1),
        (setByPath nested (r :: rs) value).2)
    | some _ => (data, some (.notAMap s))

/-! ## Codec and filesystem model -/

/-- Modelled from the spec (§2, §6): a file's raw byte buffer at the
level the Structured Document Codec exposes — either it decodes to a
top-level document tree or decoding fails. The byte-level YAML/JSON
(un)marshalling is an external library; the format is selected by file
extension but both formats decode to the same generic tree, so the
extension does not appear in the model. -/
inductive FileContent where
  | wellFormed : DocMap → FileContent
  | malformed : FileContent

/-- `parseFileContent` (monorepo.go:548-561): decode a byte buffer into
the generic document tree; `filePath` only selects the codec by
extension, which the tree-level codec model does not distinguish. -/
def parseFileContent (_filePath : String) (content : FileContent) :
    Except String DocMap :=
  match content with
  | .wellFormed d => .ok d
  | .malformed => .error "parse error"

/-- The encoding half of the codec (`json.MarshalIndent` /
`yaml.Marshal` inside `marshalToFile`, monorepo.go:563-582), at tree
level: the bytes written for a tree decode back to that tree. -/
def encodeContent (d : DocMap) : FileContent :=
  .wellFormed d

/-- The on-disk filesystem visible to the core: pairs of absolute file
path and current content, first occurrence wins. -/
abbrev Fs := List (String × FileContent)

/-- Read a file (`os.ReadFile`); `none` is an I/O error. -/
def fsRead (fs : Fs) (path : String) : Option FileContent :=
  match fs with
  | [] => none
  | (p, c) :: rest => if p = path then some c else fsRead rest path

/-- Write a file (`os.WriteFile`): overwrite the first occurrence, or
create the file. -/
def fsWrite (fs : Fs) (path : String) (content : FileContent) : Fs :=
  match fs with
  | [] => [(path, content)]
  | (p, c) :: rest =>
    if p = path then (p, content) :: rest else (p, c) :: fsWrite rest path content

/-! ## Reading and writing versions (monorepo.go:495-546) -/

/-- `ReadVersionFromBytes` (monorepo.go:497-519): parse the version out
of raw file content via decode → `parsePath` → `getByPath` → the
value-is-a-string check → `ToVersion`. -/
def ReadVersionFromBytes (filePath : String) (content : FileContent)
    (dotPath : String) : Except String VersionS :=
  match parseFileContent filePath content with
  | .error e => .error e
  | .ok data =>
    match parsePath dotPath with
    | .error _ => .error "invalid path"
    | .ok segments =>
      match getByPath data segments with
      | .error _ => .error "navigation failed"
      | .ok raw =>
        match raw with
        | .str vstr =>
          match toVersion vstr with
          | .error _ => .error "invalid semver"
          | .ok v => .ok v
        | _ => .error "value is not a string"

/-- `readVersionFromFile` (monorepo.go:521-527): read the on-disk bytes
and delegate to `ReadVersionFromBytes`. -/
def readVersionFromFile (fs : Fs) (filePath dotPath : String) :
    Except String VersionS :=
  match fsRead fs filePath with
  | none => .error "read error"
  | some content => ReadVersionFromBytes filePath content dotPath

/-- `writeVersionToFile` (monorepo.go:529-546): re-read the current
on-disk document, decode it, set the value at the parsed path, and
overwrite the file with the re-encoded tree; any failure leaves the
filesystem untouched. -/
def writeVersionToFile (fs : Fs) (filePath dotPath version : String) :
    Except String Fs :=
  match fsRead fs filePath with
  | none => .error "read error"
  | some content =>
    match parseFileContent filePath content with
    | .error e => .error e
    | .ok data =>
      match parsePath dotPath with
      | .error _ => .error "invalid path"
      | .ok segments =>
        match setByPath data segments version with
        | (_, some _) => .error "navigation failed"
        | (data2, none) => .ok (fsWrite fs filePath (encodeContent data2))

/-! ## Components and discovery (monorepo.go:15-20, 452-481) -/

/-- `MonorepoComponent` (monorepo.go:15-20). `currentVersion` is a Go
nullable pointer. -/
structure MonorepoComponent where
  name : String
  rootPath : String
  versioningFilePath : String
  currentVersion : Option VersionS

/-- The monorepo section of the configuration: the versioning-file glob
pattern and the path expression (consumed opaquely, per spec §6). -/
structure MonorepoConfig where
  versioningFile : String
  path : String

/-- Index of the last `/` in a character list, if any. -/
def lastSlashIdx : List Char → Option Nat
  | [] => none
  | c :: rest =>
    match lastSlashIdx rest with
    | some i => some (i + 1)
    | none => if c = '/' then some 0 else none

/-- Models `filepath.Base` for slash-separated paths without trailing
slashes (the shapes this core produces): the part after the last `/`,
or the whole path when it has none. -/
def baseOf (p : String) : String :=
  match lastSlashIdx p.toList with
  | none => p
  | some i => ((p.toList).drop (i + 1)).asString

/-- Models `filepath.Dir` for slash-separated paths without trailing
slashes: the part before the last `/`, or `"."` when there is none. -/
def dirOf (p : String) : String :=
  match lastSlashIdx p.toList with
  | none => "."
  | some 0 => "/"
  | some i => ((p.toList).take i).asString

/-- Is the first character list a prefix of the second? -/
def listHasPrefix : List Char → List Char → Bool
  | [], _ => true
  | _ :: _, [] => false
  | a :: as, b :: bs => a == b && listHasPrefix as bs

/-- Models `filepath.Rel` for the slash-separated shapes this core
produces: `target` equal to `base` relativizes to `"."`, a `target`
under `base ++ "/"` relativizes by dropping that prefix, and anything
else fails (as `filepath.Rel` does for unrelated paths). -/
def filepathRel (base target : String) : Except String String :=
  if target = base then .ok "."
  else if listHasPrefix (base.toList ++ ['/']) target.toList then
    .ok ((target.toList.drop (base.toList.length + 1)).asString)
  else .error "cannot make relative"

/-- The per-match loop body of `FindComponents` (monorepo.go:466-479):
read each match's version, aborting on the first failure; a successful
match becomes a component named after its containing directory. -/
def findLoop (fs : Fs) (dotPath : String) :
    List String → Except String (List MonorepoComponent)
  | [] => .ok []
  | matchPath :: rest =>
    match readVersionFromFile fs matchPath dotPath with
    | .error _ => .error ("reading version from " ++ matchPath)
    | .ok version =>
      match findLoop fs dotPath rest with
      | .error e => .error e
      | .ok comps =>
        .ok (⟨baseOf (dirOf matchPath), dirOf matchPath, matchPath,
              some version⟩ :: comps)

/-- `FindComponents` (monorepo.go:452-481). `globResult` is the outcome
of `filepath.Glob` on the joined pattern (an external call): an error
for an unparsable pattern, otherwise the matched file paths. -/
def FindComponents (globResult : Except String (List String)) (fs : Fs)
    (cfg : MonorepoConfig) : Except String (List MonorepoComponent) :=
  if cfg.versioningFile = "" then
    .error "monorepo.versioning-file is not configured"
  else
    match globResult with
    | .error _ => .error "invalid versioning-file glob"
    | .ok ms =>
      if ms.isEmpty then .error "no files matched versioning-file pattern"
      else findLoop fs cfg.path ms

/-- `MonorepoProcessorImpl.NextVersion` (monorepo.go:483-486):
delegates to the semver processor with the component's current
version as base. -/
def MonorepoProcessorImpl.NextVersion (component : MonorepoComponent)
    (commits : List GitCommitLog) : Option VersionS × Bool :=
  semverNextVersion component.currentVersion commits

/-- `MonorepoProcessorImpl.UpdateVersion` (monorepo.go:488-491): write
`version.Original()` into the component's versioning file at the
configured path. -/
def UpdateVersion (fs : Fs) (component : MonorepoComponent)
    (version : VersionS) (cfg : MonorepoConfig) : Except String Fs :=
  writeVersionToFile fs component.versioningFilePath cfg.path version.original

/-! ## The repository-history collaborator (spec §6, §9) -/

/-- The kind of a log range request (`sv.TagRange` / `sv.DateRange` /
`sv.HashRange`). -/
inductive RangeKind where
  | tagRange
  | dateRange
  | hashRange
  deriving Repr, DecidableEq

/-- A log range request (`sv.LogRange`): exactly one kind, a start and
end boundary, and an optional path filter restricting to subtrees. -/
structure LogRange where
  kind : RangeKind
  start : String
  stop : String
  paths : List String
  deriving Repr, DecidableEq

/-- `sv.NewLogRangeWithPaths`: build a log range with a path filter. -/
def NewLogRangeWithPaths (kind : RangeKind) (start stop : String)
    (paths : List String) : LogRange :=
  ⟨kind, start, stop, paths⟩

/-- Modelled from the spec (§6, §9): the repository-history
collaborator (`sv.Git`), restricted to the capabilities the monorepo
core consumes. An empty string from `lastComponentTag` or
`lastFileCommit` means "no such tag / commit"; `showFile` returns the
byte content of a file as of a historical commit. -/
structure Git where
  lastComponentTag : String → String
  log : LogRange → Except String (List GitCommitLog)
  lastFileCommit : String → String
  showFile : String → String → Except String FileContent
  tagForComponent : VersionS → String → Except String String

/-! ## Three-tier baseline resolution (handlers.go:743-790) -/

/-- `componentBaseVersionAndCommits` (handlers.go:756-790): the
three-tier baseline resolver. Tier 1: a component-scoped tag exists —
parse the version from the tag's base name (Go drops the parse error,
leaving a nil version) and take the tag-to-worktree range filtered to
the subtree. Tier 2: no tag, but the versioning file has a last commit
— take the hash-to-worktree range filtered to the subtree and read the
base version from the file content at that commit, falling back to the
component's current version when `ShowFile` or the parse fails.
Tier 3: neither — current version and the unbounded range filtered to
the subtree. -/
def componentBaseVersionAndCommits (g : Git) (repoPath : String)
    (component : MonorepoComponent) (dotPath : String) :
    Except String (Option VersionS × List GitCommitLog) :=
  match filepathRel repoPath component.rootPath with
  | .error e => .error e
  | .ok relDir =>
    if g.lastComponentTag relDir ≠ "" then
      let lastTag := g.lastComponentTag relDir
      match g.log (NewLogRangeWithPaths .tagRange lastTag "" [relDir]) with
      | .error e => .error e
      | .ok commits => .ok ((toVersion (baseOf lastTag)).toOption, commits)
    else
      let tier3 :=
        match g.log (NewLogRangeWithPaths .tagRange "" "" [relDir]) with
        | .error e => .error e
        | .ok commits => .ok (component.currentVersion, commits)
      match filepathRel repoPath component.versioningFilePath with
      | .error _ => tier3
      | .ok relFile =>
        if g.lastFileCommit relFile ≠ "" then
          let fileCommit := g.lastFileCommit relFile
          match g.log (NewLogRangeWithPaths .hashRange fileCommit "" [relDir]) with
          | .error e => .error e
          | .ok commits =>
            match g.showFile fileCommit relFile with
            | .ok content =>
              match ReadVersionFromBytes component.versioningFilePath content
                  dotPath with
              | .ok baseVer => .ok (some baseVer, commits)
              | .error _ => .ok (component.currentVersion, commits)
            | .error _ => .ok (component.currentVersion, commits)
        else tier3

/-- `componentCommits` (handlers.go:733-741): the tag flow's commit
range — commits touching the component directory since the last
component-scoped tag, with an empty tag (no tag yet) giving all
directory commits. -/
def componentCommits (g : Git) (repoPath : String)
    (component : MonorepoComponent) : Except String (List GitCommitLog) :=
  match filepathRel repoPath component.rootPath with
  | .error e => .error e
  | .ok relDir =>
    g.log (NewLogRangeWithPaths .tagRange (g.lastComponentTag relDir) ""
      [relDir])

/-! ## The version-update flow (handlers.go:599-636) -/

/-- The observable outcome of one iteration of the
`monorepoUpdateVersionHandler` loop for one component. `errorOut`
aborts the whole handler; `noChange` and `alreadyAt` are the two skip
messages; `wrote` is the successful write. `nilNext` marks the path
where the resolver produced a nil next version (tier-1 tag parse
failure), on which the Go code would dereference a nil pointer — no
write happens there either. -/
inductive UpdateOutcome where
  | errorOut (e : String)
  | noChange
  | alreadyAt
  | wrote (v : VersionS)
  | nilNext
  deriving Repr, DecidableEq

/-- The body of the per-component loop of `monorepoUpdateVersionHandler`
(handlers.go:612-633): resolve the baseline, compute the next version,
skip when nothing changed or the next version equals the current
on-disk version, otherwise write. Returns the outcome and the
filesystem the iteration leaves behind. -/
def updateVersionStep (g : Git) (repoPath : String) (cfg : MonorepoConfig)
    (fs : Fs) (component : MonorepoComponent) : UpdateOutcome × Fs :=
  match componentBaseVersionAndCommits g repoPath component cfg.path with
  | .error e => (.errorOut e, fs)
  | .ok (baseVer, commits) =>
    match semverNextVersion baseVer commits with
    | (_, false) => (.noChange, fs)
    | (nextVer, true) =>
      match nextVer with
      | none => (.nilNext, fs)
      | some nv =>
        if versionOptEqB (some nv) component.currentVersion then
          (.alreadyAt, fs)
        else
          match UpdateVersion fs component nv cfg with
          | .error e => (.errorOut e, fs)
          | .ok fs2 => (.wrote nv, fs2)

/-- The component loop of `monorepoUpdateVersionHandler`
(handlers.go:612-633): iterate the components, abort on the first
error, thread the filesystem through. -/
def runUpdateLoop (g : Git) (repoPath : String) (cfg : MonorepoConfig) :
    List MonorepoComponent → Fs → Except String (List UpdateOutcome × Fs)
  | [], fs => .ok ([], fs)
  | component :: rest, fs =>
    match updateVersionStep g repoPath cfg fs component with
    | (.errorOut e, _) => .error e
    | (.nilNext, _) => .error "nil next version"
    | (outcome, fs2) =>
      match runUpdateLoop g repoPath cfg rest fs2 with
      | .error e => .error e
      | .ok (outcomes, fs3) => .ok (outcome :: outcomes, fs3)

/-- `monorepoUpdateVersionHandler` (handlers.go:599-636): discover the
components, then run the update loop over them. -/
def monorepoUpdateVersionHandler (g : Git)
    (globResult : Except String (List String)) (repoPath : String)
    (cfg : MonorepoConfig) (fs : Fs) :
    Except String (List UpdateOutcome × Fs) :=
  match FindComponents globResult fs cfg with
  | .error e => .error e
  | .ok components => runUpdateLoop g repoPath cfg components fs

/-! ## The tag flow (handlers.go:556-597) -/

/-- The observable outcome of one iteration of the `monorepoTagHandler`
loop for one component: abort, the no-change skip, or a successful
write-and-tag carrying the written version and the created tag name.
`nilNext` marks the nil-next-version path as in `UpdateOutcome`. -/
inductive TagOutcome where
  | errorOut (e : String)
  | noChange
  | tagged (v : VersionS) (tagName : String)
  | nilNext
  deriving Repr, DecidableEq

/-- The body of the per-component loop of `monorepoTagHandler`
(handlers.go:569-594): fetch the tag-flow commit range, compute the
next version from the component's current on-disk version, and — when
anything changed — write the file, then create the component tag.
There is no comparison of the next version against the current one. -/
def monorepoTagStep (g : Git) (repoPath : String) (cfg : MonorepoConfig)
    (fs : Fs) (component : MonorepoComponent) : TagOutcome × Fs :=
  match componentCommits g repoPath component with
  | .error e => (.errorOut e, fs)
  | .ok commits =>
    match MonorepoProcessorImpl.NextVersion component commits with
    | (_, false) => (.noChange, fs)
    | (nextVer, true) =>
      match nextVer with
      | none => (.nilNext, fs)
      | some nv =>
        match UpdateVersion fs component nv cfg with
        | .error e => (.errorOut e, fs)
        | .ok fs2 =>
          match filepathRel repoPath component.rootPath with
          | .error e => (.errorOut e, fs2)
          | .ok relDir =>
            match g.tagForComponent nv relDir with
            | .error e => (.errorOut e, fs2)
            | .ok tagName => (.tagged nv tagName, fs2)

/-! ## Navigation lemmas -/

/-- The error component of an `Except` result, `none` on success. -/
def excErr {ε α : Type} : Except ε α → Option ε
  | .error e => some e
  | .ok _ => none

theorem docLookup_docUpdate_self (data : DocMap) (key : String) (v w : DocValue)
    (h : docLookup data key = some w) :
    docLookup (docUpdate data key v) key = some v := by
  induction data with
  | nil => simp [docLookup] at h
  | cons kv rest ih =>
    obtain ⟨k, u⟩ := kv
    by_cases hk : k = key
    · simp [docLookup, docUpdate, hk]
    · simp [docLookup, docUpdate, hk] at h ⊢
      exact ih h

theorem docUpdate_self_eq (data : DocMap) (key : String) (v : DocValue)
    (h : docLookup data key = some v) : docUpdate data key v = data := by
  induction data with
  | nil => simp [docLookup] at h
  | cons kv rest ih =>
    obtain ⟨k, u⟩ := kv
    by_cases hk : k = key
    · simp [docLookup, hk] at h
      simp [docUpdate, hk, h]
    · simp [docLookup, hk] at h
      simp [docUpdate, hk, ih h]

/-- `setByPath` fails exactly where `getByPath` fails, with the same
error. -/
theorem setByPath_err_eq : ∀ (segments : List String) (data : DocMap)
    (v : String),
    (setByPath data segments v).2 = excErr (getByPath data segments)
  | [], data, v => by simp [setByPath, getByPath, excErr]
  | [s], data, v => by
    cases hl : docLookup data s <;> simp [setByPath, getByPath, hl, excErr]
  | s :: r :: rs, data, v => by
    cases hl : docLookup data s with
    | none => simp [setByPath, getByPath, hl, excErr]
    | some val =>
      cases val with
      | map nested =>
        simp only [setByPath, getByPath, hl]
        exact setByPath_err_eq (r :: rs) nested v
      | str t => simp [setByPath, getByPath, hl, excErr]
      | num n => simp [setByPath, getByPath, hl, excErr]
      | boolean b => simp [setByPath, getByPath, hl, excErr]
      | nullv => simp [setByPath, getByPath, hl, excErr]

/-- On any failure, the tree the mutation leaves behind is the input
tree: no key at any nesting level was touched. -/
theorem setByPath_err_unchanged : ∀ (segments : List String) (data : DocMap)
    (v : String) (e : PathErr),
    (setByPath data segments v).2 = some e →
    (setByPath data segments v).1 = data
  | [], data, v, e, _ => by simp [setByPath]
  | [s], data, v, e, h => by
    cases hl : docLookup data s <;> simp [setByPath, hl] at h ⊢
  | s :: r :: rs, data, v, e, h => by
    cases hl : docLookup data s with
    | none => simp [setByPath, hl]
    | some val =>
      cases val with
      | map nested =>
        simp only [setByPath, hl] at h ⊢
        rw [setByPath_err_unchanged (r :: rs) nested v e h]
        exact docUpdate_self_eq data s (.map nested) hl
      | str t => simp [setByPath, hl]
      | num n => simp [setByPath, hl]
      | boolean b => simp [setByPath, hl]
      | nullv => simp [setByPath, hl]

/-- After a successful `setByPath`, `getByPath` at the same segments
returns exactly the written string. -/
theorem getByPath_after_set : ∀ (segments : List String) (data : DocMap)
    (v : String),
    (setByPath data segments v).2 = none →
    getByPath (setByPath data segments v).1 segments = .ok (.str v)
  | [], data, v, h => by simp [setByPath] at h
  | [s], data, v, h => by
    cases hl : docLookup data s with
    | none => simp [setByPath, hl] at h
    | some val =>
      simp [setByPath, hl, getByPath,
        docLookup_docUpdate_self data s (.str v) val hl]
  | s :: r :: rs, data, v, h => by
    cases hl : docLookup data s with
    | none => simp [setByPath, hl] at h
    | some val =>
      cases val with
      | map nested =>
        simp only [setByPath, hl] at h ⊢
        simp only [getByPath,
          docLookup_docUpdate_self data s
            (.map (setByPath nested (r :: rs) v).1) (.map nested) hl]
        exact getByPath_after_set (r :: rs) nested v h
      | str t => simp [setByPath, hl] at h
      | num n => simp [setByPath, hl] at h
      | boolean b => simp [setByPath, hl] at h
      | nullv => simp [setByPath, hl] at h

theorem fsRead_fsWrite_self (fs : Fs) (p : String) (c : FileContent) :
    fsRead (fsWrite fs p c) p = some c := by
  induction fs with
  | nil => simp [fsWrite, fsRead]
  | cons pc rest ih =>
    obtain ⟨q, d⟩ := pc
    by_cases hq : q = p
    · simp [fsWrite, fsRead, hq]
    · simp [fsWrite, fsRead, hq, ih]

/-! ## Claim C6: Set never creates keys -/

/-- C6: for every document tree and segment sequence, `setByPath`
succeeds exactly when `getByPath` finds a value at the same segments —
the final key must already exist in the mapping reached by walking the
earlier segments — and then replaces that key's value with the written
string; on an absent final key it fails with the same key-not-found
error `getByPath` reports, and an intermediate non-mapping value
produces the same not-a-map failure as `getByPath` (no key is ever
created). -/
theorem claim_C6_set_never_creates_keys (data : DocMap)
    (segments : List String) (v : String) :
    ((setByPath data segments v).2 = none ↔
      ∃ val, getByPath data segments = .ok val) ∧
    ((setByPath data segments v).2 = none →
      getByPath (setByPath data segments v).1 segments = .ok (.str v)) ∧
    (∀ e, (setByPath data segments v).2 = some e ↔
      getByPath data segments = .error e) := by
  refine ⟨?_, getByPath_after_set segments data v, ?_⟩
  · rw [setByPath_err_eq segments data v]
    cases hg : getByPath data segments <;> simp [excErr]
  · intro e
    rw [setByPath_err_eq segments data v]
    cases hg : getByPath data segments <;> simp [excErr]

/-- Witness for C6 at a concrete two-level document. -/
theorem claim_C6_set_never_creates_keys_witness :
    (setByPath [("a", .map [("b", .str "1.0.0")])] ["a", "b"] "2.0.0").2 =
      none ∧
    getByPath (setByPath [("a", .map [("b", .str "1.0.0")])] ["a", "b"]
        "2.0.0").1 ["a", "b"] = .ok (.str "2.0.0") :=
  ⟨rfl,
    (claim_C6_set_never_creates_keys [("a", .map [("b", .str "1.0.0")])]
      ["a", "b"] "2.0.0").2.1 rfl⟩

/-! ## Claim C9: Set is atomic on failure -/

/-- C9: whenever `setByPath` returns an error (empty path, a key not
found at any depth, or an intermediate value that is not a mapping),
the document tree it leaves behind is exactly the input tree — no key
at any nesting level was added, removed or modified. -/
theorem claim_C9_set_atomic_on_failure (data : DocMap)
    (segments : List String) (v : String) (e : PathErr)
    (h : (setByPath data segments v).2 = some e) :
    (setByPath data segments v).1 = data :=
  setByPath_err_unchanged segments data v e h

/-- Witness for C9: a failing deep set (intermediate value is a
string) leaves the tree untouched. -/
theorem claim_C9_set_atomic_on_failure_witness :
    (setByPath [("a", .str "x"), ("b", .str "y")] ["a", "c"] "2").2 =
      some (.notAMap "a") ∧
    (setByPath [("a", .str "x"), ("b", .str "y")] ["a", "c"] "2").1 =
      [("a", .str "x"), ("b", .str "y")] :=
  ⟨rfl,
    claim_C9_set_atomic_on_failure [("a", .str "x"), ("b", .str "y")]
      ["a", "c"] "2" (.notAMap "a") rfl⟩

/-! ## Claim C7: Write-then-read round trip -/

/-- C7: whenever `UpdateVersion` (via `writeVersionToFile`) succeeds,
re-reading the written file, decoding it, and navigating to the same
configured path yields exactly the version's original literal string
`version.Original()` — not a reformatted canonical form. -/
theorem claim_C7_write_then_read (fs : Fs) (component : MonorepoComponent)
    (v : VersionS) (cfg : MonorepoConfig) (fs2 : Fs)
    (h : UpdateVersion fs component v cfg = .ok fs2) :
    ∃ content data segments,
      fsRead fs2 component.versioningFilePath = some content ∧
      parseFileContent component.versioningFilePath content = .ok data ∧
      parsePath cfg.path = .ok segments ∧
      getByPath data segments = .ok (.str v.original) := by
  unfold UpdateVersion writeVersionToFile at h
  cases hr : fsRead fs component.versioningFilePath with
  | none => simp [hr] at h
  | some content =>
    simp only [hr] at h
    cases hd : parseFileContent component.versioningFilePath content with
    | error e => simp [hd] at h
    | ok data =>
      simp only [hd] at h
      cases hp : parsePath cfg.path with
      | error e => simp [hp] at h
      | ok segments =>
        simp only [hp] at h
        rcases hs : setByPath data segments v.original with ⟨d2, e2⟩
        rw [hs] at h
        cases e2 with
        | some e => simp at h
        | none =>
          simp only [Except.ok.injEq] at h
          refine ⟨encodeContent d2, d2, segments, ?_, rfl, rfl, ?_⟩
          · rw [← h]
            exact fsRead_fsWrite_self fs component.versioningFilePath _
          · have hget := getByPath_after_set segments data v.original
              (by rw [hs])
            rw [hs] at hget
            exact hget

/-- Witness for C7: writing 1.2.3 (original literal `1.2.3`) into a
one-key document and reading it back. -/
theorem claim_C7_write_then_read_witness :
    UpdateVersion [("f.yaml", .wellFormed [("version", .str "1.0.0")])]
        ⟨"c", "d", "f.yaml", none⟩ ⟨1, 2, 3, "", "", "1.2.3"⟩ ⟨"*", "version"⟩ =
      .ok [("f.yaml", .wellFormed [("version", .str "1.2.3")])] ∧
    ∃ content data segments,
      fsRead [("f.yaml", FileContent.wellFormed [("version", .str "1.2.3")])]
          "f.yaml" = some content ∧
      parseFileContent "f.yaml" content = .ok data ∧
      parsePath "version" = .ok segments ∧
      getByPath data segments = .ok (.str "1.2.3") :=
  ⟨rfl,
    claim_C7_write_then_read
      [("f.yaml", .wellFormed [("version", .str "1.0.0")])]
      ⟨"c", "d", "f.yaml", none⟩ ⟨1, 2, 3, "", "", "1.2.3"⟩ ⟨"*", "version"⟩
      [("f.yaml", .wellFormed [("version", .str "1.2.3")])] rfl⟩

/-! ## Parser lemmas -/

/-- Characters that are neither `.` nor `[` accumulate into the current
segment of the scanning loop. -/
theorem parseLoop_plain_append : ∀ (cs rest cur : List Char)
    (acc : List String), (∀ c ∈ cs, c ≠ '.' ∧ c ≠ '[') →
    parseLoop (cs ++ rest) .plain cur acc
      = parseLoop rest .plain (cur ++ cs) acc
  | [], rest, cur, acc, _ => by simp
  | c :: cs, rest, cur, acc, h => by
    have hc := h c (by simp)
    have hcs : ∀ d ∈ cs, d ≠ '.' ∧ d ≠ '[' := fun d hd => h d (by simp [hd])
    simp only [List.cons_append, parseLoop, if_neg hc.1, if_neg hc.2,
      List.append_eq]
    rw [parseLoop_plain_append cs rest (cur ++ [c]) acc hcs]
    simp

/-- Characters other than the quote character accumulate into the
current segment while inside bracket notation. -/
theorem parseLoop_quote_append (q : Char) : ∀ (cs rest cur : List Char)
    (acc : List String), (∀ c ∈ cs, c ≠ q) →
    parseLoop (cs ++ rest) (.inQuote q) cur acc
      = parseLoop rest (.inQuote q) (cur ++ cs) acc
  | [], rest, cur, acc, _ => by simp
  | c :: cs, rest, cur, acc, h => by
    have hc := h c (by simp)
    have hcs : ∀ d ∈ cs, d ≠ q := fun d hd => h d (by simp [hd])
    simp only [List.cons_append, parseLoop, if_neg hc, List.append_eq]
    rw [parseLoop_quote_append q cs rest (cur ++ [c]) acc hcs]
    simp

/-- Just after a closing `]` (with nothing pending in the current
segment) the loop behaves exactly like plain scanning: the optional
`.`-skip coincides with plain scanning dropping an empty segment. -/
theorem parseLoop_afterBracket_plain (cs : List Char) (acc : List String) :
    parseLoop cs .afterBracket [] acc = parseLoop cs .plain [] acc := by
  cases cs with
  | nil => rfl
  | cons c rest =>
    by_cases h1 : c = '.'
    · simp [parseLoop, h1]
    · by_cases h2 : c = '['
      · simp [parseLoop, h1, h2]
      · simp [parseLoop, h1, h2]

/-- Consuming a full `["literal"]` group from plain mode: the enclosed
text becomes one verbatim segment and the loop continues just after the
`]`. -/
theorem parseLoop_bracket (lit rest : List Char) (acc : List String)
    (h : ∀ c ∈ lit, c ≠ '"') :
    parseLoop ('[' :: '"' :: (lit ++ '"' :: ']' :: rest)) .plain [] acc
      = parseLoop rest .afterBracket [] (acc ++ [lit.asString]) := by
  have h1 : ('[' : Char) ≠ '.' := by decide
  simp only [parseLoop, if_neg h1, if_pos rfl, List.isEmpty_nil, if_pos trivial]
  rw [parseLoop_quote_append '"' lit ('"' :: ']' :: rest) [] acc h]
  simp [parseLoop]

/-- Consuming a full `['literal']` group (single-quoted bracket
notation) from plain mode: the enclosed text becomes one verbatim
segment and the loop continues just after the `]`. -/
theorem parseLoop_bracket_sq (lit rest : List Char) (acc : List String)
    (h : ∀ c ∈ lit, c ≠ '\'') :
    parseLoop ('[' :: '\'' :: (lit ++ '\'' :: ']' :: rest)) .plain [] acc
      = parseLoop rest .afterBracket [] (acc ++ [lit.asString]) := by
  have h1 : ('[' : Char) ≠ '.' := by decide
  simp only [parseLoop, if_neg h1, if_pos rfl, List.isEmpty_nil,
    eq_self_iff_true, or_true, if_true]
  rw [parseLoop_quote_append '\'' lit ('\'' :: ']' :: rest) [] acc h]
  simp [parseLoop]

/-- `List.asString` undoes `String.toList`. -/
theorem asString_toList (s : String) : s.toList.asString = s := rfl

/-- `List.asString` undoes `String.data`. -/
theorem asString_data (s : String) : s.data.asString = s := rfl

/-- End of input in plain mode flushes a non-empty pending segment. -/
theorem parseLoop_end_flush (cur : List Char) (acc : List String)
    (h : cur ≠ []) :
    parseLoop [] .plain cur acc = .ok (acc ++ [cur.asString]) := by
  simp [parseLoop, h]

/-- A `.` in plain mode flushes a non-empty pending segment. -/
theorem parseLoop_dot_flush (rest cur : List Char) (acc : List String)
    (h : cur ≠ []) :
    parseLoop ('.' :: rest) .plain cur acc
      = parseLoop rest .plain [] (acc ++ [cur.asString]) := by
  simp [parseLoop, h]

/-- A `.` in plain mode with nothing pending is skipped. -/
theorem parseLoop_dot_skip (rest : List Char) (acc : List String) :
    parseLoop ('.' :: rest) .plain [] acc = parseLoop rest .plain [] acc := by
  simp [parseLoop]

/-- `parsePath` on a non-empty string is the scan of its characters
after the optional leading-dot strip. -/
theorem parsePath_ne_empty (s : String) (h : s ≠ "") :
    parsePath s = parsePathPost (parseLoop
      (if s.toList.head? = some '.' then s.toList.tail else s.toList)
      .plain [] []) := by
  unfold parsePath
  rw [if_neg h]

/-- Dotted concatenation of segments: `joinDots ["a","b"] = "a.b"`. -/
def joinDots : List String → String
  | [] => ""
  | [s] => s
  | s :: r :: rs => s ++ "." ++ joinDots (r :: rs)

/-- Scanning a dotted concatenation of plain non-empty segments appends
exactly those segments. -/
theorem joinDots_loop : ∀ (segs : List String) (acc : List String),
    segs ≠ [] →
    (∀ seg ∈ segs, seg.toList ≠ [] ∧ ∀ c ∈ seg.toList, c ≠ '.' ∧ c ≠ '[') →
    parseLoop (joinDots segs).toList .plain [] acc = .ok (acc ++ segs)
  | [], _, hne, _ => absurd rfl hne
  | [s], acc, _, h => by
    have hs := h s (by simp)
    have hb := parseLoop_plain_append s.toList [] [] acc hs.2
    simp only [List.append_nil, List.nil_append] at hb
    show parseLoop s.toList .plain [] acc = .ok (acc ++ [s])
    rw [hb, parseLoop_end_flush s.toList acc hs.1, asString_toList]
  | s :: r :: rs, acc, _, h => by
    have hs := h s (by simp)
    have hrest : ∀ seg ∈ r :: rs,
        seg.toList ≠ [] ∧ ∀ c ∈ seg.toList, c ≠ '.' ∧ c ≠ '[' :=
      fun seg hseg => h seg (by simp at hseg ⊢; tauto)
    have hdata : (joinDots (s :: r :: rs)).toList
        = s.toList ++ ('.' :: (joinDots (r :: rs)).toList) := by
      show (s ++ "." ++ joinDots (r :: rs)).data
        = s.data ++ ('.' :: (joinDots (r :: rs)).data)
      simp [String.data_append]
    rw [hdata,
      parseLoop_plain_append s.toList ('.' :: (joinDots (r :: rs)).toList)
        [] acc hs.2]
    simp only [List.nil_append]
    rw [parseLoop_dot_flush (joinDots (r :: rs)).toList s.toList acc hs.1,
      asString_toList,
      joinDots_loop (r :: rs) (acc ++ [s]) (by simp) hrest]
    simp

/-- C5: the path expression grammar of `parsePath` — one optional
leading `.` is ignored; dotted concatenations of plain segments split
on `.` into exact-key segments; text enclosed in `["..."]` or in
`['...']` (the single-quoted form is written below as its character
list `'[' :: quote :: literal ++ quote :: ']' :: rest`) is taken
verbatim as a single segment (dots included, no escaping of the quote
character); one `.` immediately after a closing bracket is optional
and skipped, for either quote form; and in particular
`"metadata.version"` parses to `["metadata", "version"]` and
`"annotations[\"backstage.io/key\"]"` parses to
`["annotations", "backstage.io/key"]`. -/
theorem claim_C5_path_grammar :
    (∀ s : String, s ≠ "" → parsePath ("." ++ s) = parsePath s) ∧
    (∀ segs : List String, segs ≠ [] →
      (∀ seg ∈ segs, seg.toList ≠ [] ∧ ∀ c ∈ seg.toList, c ≠ '.' ∧ c ≠ '[') →
      parsePath (joinDots segs) = .ok segs) ∧
    (∀ lit : String, (∀ c ∈ lit.toList, c ≠ '"') →
      parsePath ("[\"" ++ lit ++ "\"]") = .ok [lit]) ∧
    (∀ lit rest : String, (∀ c ∈ lit.toList, c ≠ '"') →
      parsePath ("[\"" ++ lit ++ "\"]." ++ rest)
        = parsePath ("[\"" ++ lit ++ "\"]" ++ rest)) ∧
    (∀ lit : String, (∀ c ∈ lit.toList, c ≠ '\'') →
      parsePath (String.mk ('[' :: '\'' :: (lit.toList ++ '\'' :: ']' :: [])))
        = .ok [lit]) ∧
    (∀ lit rest : String, (∀ c ∈ lit.toList, c ≠ '\'') →
      parsePath (String.mk
          ('[' :: '\'' :: (lit.toList ++ '\'' :: ']' :: '.' :: rest.toList)))
        = parsePath (String.mk
          ('[' :: '\'' :: (lit.toList ++ '\'' :: ']' :: rest.toList)))) ∧
    parsePath "metadata.version" = .ok ["metadata", "version"] ∧
    parsePath "annotations[\"backstage.io/key\"]"
      = .ok ["annotations", "backstage.io/key"] := by
  refine ⟨?_, ?_, ?_, ?_, ?_, ?_, by rfl, by rfl⟩
  · rintro ⟨l⟩ hne
    have hl : l ≠ [] := fun hc => hne (by subst hc; rfl)
    have hne2 : ("." ++ String.mk l) ≠ "" := fun hc => by
      have h2 := congrArg String.toList hc
      simp [String.data_append] at h2
    rw [parsePath_ne_empty _ hne2, parsePath_ne_empty _ hne]
    have hd : ("." ++ String.mk l).toList = '.' :: l := rfl
    have hd2 : (String.mk l).toList = l := rfl
    rw [hd, hd2, List.head?_cons, List.tail_cons, if_pos rfl]
    cases l with
    | nil => exact absurd rfl hl
    | cons c t =>
      by_cases hc : c = '.'
      · subst hc
        rw [List.head?_cons, List.tail_cons, if_pos rfl, parseLoop_dot_skip]
      · rw [List.head?_cons, if_neg (fun h2 => hc (Option.some.inj h2))]
  · intro segs hne h
    have hloop := joinDots_loop segs [] hne h
    obtain ⟨s, rest, rfl⟩ : ∃ s rest, segs = s :: rest := by
      cases segs with
      | nil => exact absurd rfl hne
      | cons s rest => exact ⟨s, rest, rfl⟩
    have hs := h s (by simp)
    obtain ⟨c0, t0, hst⟩ : ∃ c0 t0, s.toList = c0 :: t0 := by
      cases hq : s.toList with
      | nil => exact absurd hq hs.1
      | cons c0 t0 => exact ⟨c0, t0, rfl⟩
    have hc0 : c0 ≠ '.' := (hs.2 c0 (by rw [hst]; simp)).1
    obtain ⟨u, hu⟩ : ∃ u, (joinDots (s :: rest)).toList = c0 :: u := by
      cases rest with
      | nil => exact ⟨t0, hst⟩
      | cons r rs =>
        refine ⟨t0 ++ ('.' :: (joinDots (r :: rs)).toList), ?_⟩
        show (s ++ "." ++ joinDots (r :: rs)).data = _
        simp [String.data_append]
        rw [show s.data = c0 :: t0 from hst]
        simp
    have hne2 : joinDots (s :: rest) ≠ "" := fun hc => by
      have h2 := congrArg String.toList hc
      rw [hu] at h2
      simp at h2
    rw [parsePath_ne_empty _ hne2, hu]
    simp only [List.head?_cons]
    rw [if_neg (by simpa using hc0), ← hu, hloop]
    simp [parsePathPost]
  · intro lit hq
    have hdata : ("[\"" ++ lit ++ "\"]").toList
        = '[' :: '"' :: (lit.toList ++ '"' :: ']' :: []) := by
      show ("[\"" ++ lit ++ "\"]").data = _
      simp [String.data_append]
    have hne2 : ("[\"" ++ lit ++ "\"]") ≠ "" := fun hc => by
      have h2 := congrArg String.toList hc
      rw [hdata] at h2
      simp at h2
    rw [parsePath_ne_empty _ hne2, hdata]
    simp only [List.head?_cons]
    rw [if_neg (by simp), parseLoop_bracket lit.toList [] [] hq]
    simp [parseLoop, parsePathPost, asString_toList, asString_data]
  · intro lit rest hq
    have hd1 : ("[\"" ++ lit ++ "\"]." ++ rest).toList
        = '[' :: '"' :: (lit.toList ++ '"' :: ']' :: ('.' :: rest.toList)) := by
      show ("[\"" ++ lit ++ "\"]." ++ rest).data = _
      simp [String.data_append]
    have hd2 : ("[\"" ++ lit ++ "\"]" ++ rest).toList
        = '[' :: '"' :: (lit.toList ++ '"' :: ']' :: rest.toList) := by
      show ("[\"" ++ lit ++ "\"]" ++ rest).data = _
      simp [String.data_append]
    have hne1 : ("[\"" ++ lit ++ "\"]." ++ rest) ≠ "" := fun hc => by
      have h2 := congrArg String.toList hc
      rw [hd1] at h2
      simp at h2
    have hne2 : ("[\"" ++ lit ++ "\"]" ++ rest) ≠ "" := fun hc => by
      have h2 := congrArg String.toList hc
      rw [hd2] at h2
      simp at h2
    rw [parsePath_ne_empty _ hne1, parsePath_ne_empty _ hne2, hd1, hd2]
    simp only [List.head?_cons]
    rw [if_neg (by simp), if_neg (by simp)]
    rw [parseLoop_bracket lit.toList ('.' :: rest.toList) [] hq,
      parseLoop_bracket lit.toList rest.toList [] hq,
      parseLoop_afterBracket_plain rest.toList ([] ++ [lit.toList.asString])]
    rfl
  · intro lit hq
    have hd : (String.mk
        ('[' :: '\'' :: (lit.toList ++ '\'' :: ']' :: []))).toList
        = '[' :: '\'' :: (lit.toList ++ '\'' :: ']' :: []) := rfl
    have hne2 : String.mk
        ('[' :: '\'' :: (lit.toList ++ '\'' :: ']' :: [])) ≠ "" := fun hc => by
      have h2 := congrArg String.toList hc
      simp at h2
    rw [parsePath_ne_empty _ hne2, hd]
    simp only [List.head?_cons]
    rw [if_neg (by simp), parseLoop_bracket_sq lit.toList [] [] hq]
    simp [parseLoop, parsePathPost, asString_toList, asString_data]
  · intro lit rest hq
    have hd1 : (String.mk
        ('[' :: '\'' :: (lit.toList ++ '\'' :: ']' :: '.' :: rest.toList))).toList
        = '[' :: '\'' :: (lit.toList ++ '\'' :: ']' :: '.' :: rest.toList) := rfl
    have hd2 : (String.mk
        ('[' :: '\'' :: (lit.toList ++ '\'' :: ']' :: rest.toList))).toList
        = '[' :: '\'' :: (lit.toList ++ '\'' :: ']' :: rest.toList) := rfl
    have hne1 : String.mk
        ('[' :: '\'' :: (lit.toList ++ '\'' :: ']' :: '.' :: rest.toList))
        ≠ "" := fun hc => by
      have h2 := congrArg String.toList hc
      simp at h2
    have hne2 : String.mk
        ('[' :: '\'' :: (lit.toList ++ '\'' :: ']' :: rest.toList))
        ≠ "" := fun hc => by
      have h2 := congrArg String.toList hc
      simp at h2
    rw [parsePath_ne_empty _ hne1, parsePath_ne_empty _ hne2, hd1, hd2]
    simp only [List.head?_cons]
    rw [if_neg (by simp), if_neg (by simp)]
    rw [parseLoop_bracket_sq lit.toList ('.' :: rest.toList) [] hq,
      parseLoop_bracket_sq lit.toList rest.toList [] hq,
      parseLoop_afterBracket_plain rest.toList ([] ++ [lit.toList.asString])]
    rfl

/-- Witness for C5's universally quantified conjuncts at concrete
inputs, the two bracket forms (double- and single-quoted) included. -/
theorem claim_C5_path_grammar_witness :
    parsePath (".a.b") = parsePath "a.b" ∧
    parsePath (joinDots ["a", "b"]) = .ok ["a", "b"] ∧
    parsePath ("[\"x.y\"]") = .ok ["x.y"] ∧
    parsePath ("[\"x.y\"].z") = parsePath ("[\"x.y\"]z") ∧
    parsePath (String.mk ['[', '\'', 'x', '.', 'y', '\'', ']'])
      = .ok ["x.y"] ∧
    parsePath (String.mk ['[', '\'', 'x', '\'', ']', '.', 'z'])
      = parsePath (String.mk ['[', '\'', 'x', '\'', ']', 'z']) :=
  ⟨claim_C5_path_grammar.1 "a.b" (by decide),
    claim_C5_path_grammar.2.1 ["a", "b"] (by decide) (by decide),
    claim_C5_path_grammar.2.2.1 "x.y" (by decide),
    claim_C5_path_grammar.2.2.2.1 "x.y" "z" (by decide),
    claim_C5_path_grammar.2.2.2.2.1 "x.y" (by decide),
    claim_C5_path_grammar.2.2.2.2.2.1 "x" "z" (by decide)⟩

/-! ## Claim C1: Baseline tier selection -/

/-- C1: the three tiers are tried in order with the first success
winning. With a non-empty component-scoped tag the result is the
tag-name-parsed base and the tag-to-worktree range filtered to the
subtree, and it is unchanged under arbitrary replacement of the
`lastFileCommit` / `showFile` capabilities (tiers 2 and 3 are never
consulted, even if a versioning-file commit exists). With no tag but a
non-empty last versioning-file commit, tier 2 is used. With neither,
tier 3 returns the current on-disk version and the unbounded subtree
range. -/
theorem claim_C1_baseline_tier_selection (g : Git) (repoPath : String)
    (component : MonorepoComponent) (dotPath relDir : String)
    (hrel : filepathRel repoPath component.rootPath = .ok relDir) :
    (g.lastComponentTag relDir ≠ "" →
      (componentBaseVersionAndCommits g repoPath component dotPath
        = match g.log (NewLogRangeWithPaths .tagRange
            (g.lastComponentTag relDir) "" [relDir]) with
          | .error e => .error e
          | .ok commits =>
            .ok ((toVersion (baseOf (g.lastComponentTag relDir))).toOption,
              commits)) ∧
      ∀ lfc sf,
        componentBaseVersionAndCommits
          { g with lastFileCommit := lfc, showFile := sf }
          repoPath component dotPath
        = componentBaseVersionAndCommits g repoPath component dotPath) ∧
    (∀ relFile, g.lastComponentTag relDir = "" →
      filepathRel repoPath component.versioningFilePath = .ok relFile →
      g.lastFileCommit relFile ≠ "" →
      componentBaseVersionAndCommits g repoPath component dotPath
        = match g.log (NewLogRangeWithPaths .hashRange
            (g.lastFileCommit relFile) "" [relDir]) with
          | .error e => .error e
          | .ok commits =>
            match g.showFile (g.lastFileCommit relFile) relFile with
            | .ok content =>
              match ReadVersionFromBytes component.versioningFilePath content
                  dotPath with
              | .ok baseVer => .ok (some baseVer, commits)
              | .error _ => .ok (component.currentVersion, commits)
            | .error _ => .ok (component.currentVersion, commits)) ∧
    (∀ relFile, g.lastComponentTag relDir = "" →
      filepathRel repoPath component.versioningFilePath = .ok relFile →
      g.lastFileCommit relFile = "" →
      componentBaseVersionAndCommits g repoPath component dotPath
        = match g.log (NewLogRangeWithPaths .tagRange "" "" [relDir]) with
          | .error e => .error e
          | .ok commits => .ok (component.currentVersion, commits)) := by
  have htier1 : ∀ (g2 : Git), g2.lastComponentTag = g.lastComponentTag →
      g2.log = g.log → g2.lastComponentTag relDir ≠ "" →
      componentBaseVersionAndCommits g2 repoPath component dotPath
        = match g2.log (NewLogRangeWithPaths .tagRange
            (g2.lastComponentTag relDir) "" [relDir]) with
          | .error e => .error e
          | .ok commits =>
            .ok ((toVersion (baseOf (g2.lastComponentTag relDir))).toOption,
              commits) := by
    intro g2 _ _ htag
    unfold componentBaseVersionAndCommits
    simp only [hrel]
    rw [if_pos htag]
  refine ⟨fun htag => ⟨htier1 g rfl rfl htag, fun lfc sf => ?_⟩, ?_, ?_⟩
  · rw [htier1 { g with lastFileCommit := lfc, showFile := sf } rfl rfl htag,
      htier1 g rfl rfl htag]
  · intro relFile htag hrelF hfc
    unfold componentBaseVersionAndCommits
    simp only [hrel]
    rw [if_neg (fun hcond => hcond htag)]
    simp only [hrelF]
    rw [if_pos hfc]
  · intro relFile htag hrelF hfc
    unfold componentBaseVersionAndCommits
    simp only [hrel]
    rw [if_neg (fun hcond => hcond htag)]
    simp only [hrelF]
    rw [if_neg (fun hcond => hcond hfc)]

/-- Witness for C1: a component with the scoped tag `libs/foo/v1.1.0`
takes tier 1 — the base is parsed from the tag's base name — even
though a versioning-file commit also exists. -/
theorem claim_C1_baseline_tier_selection_witness :
    componentBaseVersionAndCommits
      ⟨fun _ => "libs/foo/v1.1.0", fun _ => .ok [], fun _ => "zzz",
        fun _ _ => .error "unused", fun _ _ => .error "unused"⟩
      "repo" ⟨"foo", "repo/libs/foo", "repo/libs/foo/ver.yaml",
        some ⟨1, 0, 0, "", "", "1.0.0"⟩⟩ "version"
      = .ok (some ⟨1, 1, 0, "", "", "v1.1.0"⟩, []) := by
  have h := ((claim_C1_baseline_tier_selection
    ⟨fun _ => "libs/foo/v1.1.0", fun _ => .ok [], fun _ => "zzz",
      fun _ _ => .error "unused", fun _ _ => .error "unused"⟩
    "repo" ⟨"foo", "repo/libs/foo", "repo/libs/foo/ver.yaml",
      some ⟨1, 0, 0, "", "", "1.0.0"⟩⟩ "version" "libs/foo" rfl).1
    (by decide)).1
  rw [h]
  rfl

/-! ## Claim C2: Tier-2 anchoring and fallback -/

/-- C2: with no component tag but a last versioning-file commit, the
base version is parsed from the file's byte content as of that
historical commit (`ShowFile`), not from the on-disk file; if
retrieving or parsing the historical content fails, the resolver falls
back to the component's current on-disk version while keeping the same
narrowed commit range, and does not fail. -/
theorem claim_C2_tier2_anchor_and_fallback (g : Git) (repoPath : String)
    (component : MonorepoComponent) (dotPath relDir relFile : String)
    (commits : List GitCommitLog)
    (hrel : filepathRel repoPath component.rootPath = .ok relDir)
    (htag : g.lastComponentTag relDir = "")
    (hrelF : filepathRel repoPath component.versioningFilePath = .ok relFile)
    (hfc : g.lastFileCommit relFile ≠ "")
    (hlog : g.log (NewLogRangeWithPaths .hashRange (g.lastFileCommit relFile)
      "" [relDir]) = .ok commits) :
    (∀ content v,
      g.showFile (g.lastFileCommit relFile) relFile = .ok content →
      ReadVersionFromBytes component.versioningFilePath content dotPath
        = .ok v →
      componentBaseVersionAndCommits g repoPath component dotPath
        = .ok (some v, commits)) ∧
    (∀ e, g.showFile (g.lastFileCommit relFile) relFile = .error e →
      componentBaseVersionAndCommits g repoPath component dotPath
        = .ok (component.currentVersion, commits)) ∧
    (∀ content e,
      g.showFile (g.lastFileCommit relFile) relFile = .ok content →
      ReadVersionFromBytes component.versioningFilePath content dotPath
        = .error e →
      componentBaseVersionAndCommits g repoPath component dotPath
        = .ok (component.currentVersion, commits)) := by
  have hbase : componentBaseVersionAndCommits g repoPath component dotPath
      = match g.showFile (g.lastFileCommit relFile) relFile with
        | .ok content =>
          match ReadVersionFromBytes component.versioningFilePath content
              dotPath with
          | .ok baseVer => .ok (some baseVer, commits)
          | .error _ => .ok (component.currentVersion, commits)
        | .error _ => .ok (component.currentVersion, commits) := by
    unfold componentBaseVersionAndCommits
    simp only [hrel]
    rw [if_neg (fun hcond => hcond htag)]
    simp only [hrelF]
    rw [if_pos hfc]
    simp only [hlog]
  refine ⟨?_, ?_, ?_⟩
  · intro content v hshow hread
    simp only [hbase, hshow, hread]
  · intro e hshow
    simp only [hbase, hshow]
  · intro content e hshow hread
    simp only [hbase, hshow, hread]

/-- Witness for C2: `ShowFile` fails, so the resolver falls back to
the current on-disk version while keeping the narrowed commit range. -/
theorem claim_C2_tier2_anchor_and_fallback_witness :
    componentBaseVersionAndCommits
      ⟨fun _ => "", fun _ => .ok [⟨"c9", .patchCat⟩], fun _ => "abc",
        fun _ _ => .error "object not found", fun _ _ => .error "unused"⟩
      "repo" ⟨"foo", "repo/foo", "repo/foo/ver.yaml",
        some ⟨1, 0, 0, "", "", "1.0.0"⟩⟩ "version"
      = .ok (some ⟨1, 0, 0, "", "", "1.0.0"⟩, [⟨"c9", .patchCat⟩]) :=
  (claim_C2_tier2_anchor_and_fallback
    ⟨fun _ => "", fun _ => .ok [⟨"c9", .patchCat⟩], fun _ => "abc",
      fun _ _ => .error "object not found", fun _ _ => .error "unused"⟩
    "repo" ⟨"foo", "repo/foo", "repo/foo/ver.yaml",
      some ⟨1, 0, 0, "", "", "1.0.0"⟩⟩ "version" "foo" "foo/ver.yaml"
    [⟨"c9", .patchCat⟩] rfl rfl rfl (by decide) rfl).2.1
    "object not found" rfl

/-! ## Claim C3: Idempotency enforcement point -/

/-- C3: in the `monorepoUpdateVersionHandler` loop body, no write
happens when the bump resolver reports no change, and none when the
computed next version equals the component's current on-disk version;
a write happens only when the resolver reports a change and the next
version differs from the current one and then it is exactly
`UpdateVersion`'s effect. -/
theorem claim_C3_idempotency_enforcement (g : Git) (repoPath : String)
    (cfg : MonorepoConfig) (fs : Fs) (component : MonorepoComponent) :
    (∀ b cs, componentBaseVersionAndCommits g repoPath component cfg.path
        = .ok (b, cs) →
      (semverNextVersion b cs).2 = false →
      updateVersionStep g repoPath cfg fs component = (.noChange, fs)) ∧
    (∀ b cs nv, componentBaseVersionAndCommits g repoPath component cfg.path
        = .ok (b, cs) →
      semverNextVersion b cs = (some nv, true) →
      versionOptEqB (some nv) component.currentVersion = true →
      updateVersionStep g repoPath cfg fs component = (.alreadyAt, fs)) ∧
    (∀ nv fs2,
      updateVersionStep g repoPath cfg fs component = (.wrote nv, fs2) →
      ∃ b cs, componentBaseVersionAndCommits g repoPath component cfg.path
          = .ok (b, cs) ∧
        semverNextVersion b cs = (some nv, true) ∧
        versionOptEqB (some nv) component.currentVersion = false ∧
        UpdateVersion fs component nv cfg = .ok fs2) := by
  refine ⟨?_, ?_, ?_⟩
  · intro b cs hres hflag
    unfold updateVersionStep
    rcases hsv : semverNextVersion b cs with ⟨nxt, flag⟩
    rw [hsv] at hflag
    simp only [hres, hsv]
    simp only at hflag
    subst hflag
    rfl
  · intro b cs nv hres hsv heq
    unfold updateVersionStep
    simp only [hres, hsv, heq]
    rfl
  · intro nv fs2 hstep
    unfold updateVersionStep at hstep
    cases hres : componentBaseVersionAndCommits g repoPath component cfg.path
      with
    | error e => simp [hres] at hstep
    | ok bc =>
      obtain ⟨b, cs⟩ := bc
      simp only [hres] at hstep
      rcases hsv : semverNextVersion b cs with ⟨nxt, flag⟩
      rw [hsv] at hstep
      cases flag with
      | false => simp at hstep
      | true =>
        cases nxt with
        | none => simp at hstep
        | some nv2 =>
          simp only [] at hstep
          by_cases heq :
            versionOptEqB (some nv2) component.currentVersion = true
          · rw [if_pos heq] at hstep
            simp at hstep
          · rw [if_neg heq] at hstep
            cases hupd : UpdateVersion fs component nv2 cfg with
            | error e => rw [hupd] at hstep; simp at hstep
            | ok fs3 =>
              rw [hupd] at hstep
              simp only [Prod.mk.injEq, UpdateOutcome.wrote.injEq] at hstep
              obtain ⟨h1, h2⟩ := hstep
              subst h1
              subst h2
              exact ⟨b, cs, rfl, hsv, by simpa using heq, hupd⟩

/-- Witness for C3: a component already at the computed next version
is skipped (`alreadyAt`) and the filesystem is unchanged. -/
theorem claim_C3_idempotency_enforcement_witness :
    updateVersionStep
      ⟨fun _ => "", fun _ => .ok [⟨"c1", .patchCat⟩], fun _ => "abc",
        fun _ _ => .ok (.wellFormed [("version", .str "1.0.0")]),
        fun _ _ => .error "unused"⟩
      "repo" ⟨"*", "version"⟩ [] ⟨"foo", "repo/foo", "repo/foo/ver.yaml",
        some ⟨1, 0, 1, "", "", "1.0.1"⟩⟩
      = (.alreadyAt, []) :=
  (claim_C3_idempotency_enforcement
    ⟨fun _ => "", fun _ => .ok [⟨"c1", .patchCat⟩], fun _ => "abc",
      fun _ _ => .ok (.wellFormed [("version", .str "1.0.0")]),
      fun _ _ => .error "unused"⟩
    "repo" ⟨"*", "version"⟩ [] ⟨"foo", "repo/foo", "repo/foo/ver.yaml",
      some ⟨1, 0, 1, "", "", "1.0.1"⟩⟩).2.1
    (some ⟨1, 0, 0, "", "", "1.0.0"⟩) [⟨"c1", .patchCat⟩]
    ⟨1, 0, 1, "", "", "1.0.1"⟩ rfl rfl rfl

/-! ## Claim C10: The tag flow does not use the tier-2/tier-3 anchor -/

/-- C10: the tag flow computes the next version from the component's
current on-disk version over a commit range determined only by the last
component-scoped tag (tag-to-worktree, or all subtree commits when the
tag is empty); its outcome is invariant under arbitrary replacement of
the `lastFileCommit` / `showFile` capabilities (that anchor is never
consulted), and whenever the resolver reports a change the file is
written and the tag created with no comparison of the next version
against the current one. -/
theorem claim_C10_tag_flow_no_anchor (g : Git) (repoPath : String)
    (cfg : MonorepoConfig) (fs : Fs) (component : MonorepoComponent) :
    (∀ relDir, filepathRel repoPath component.rootPath = .ok relDir →
      componentCommits g repoPath component
        = g.log (NewLogRangeWithPaths .tagRange (g.lastComponentTag relDir)
            "" [relDir])) ∧
    (∀ lfc sf,
      monorepoTagStep { g with lastFileCommit := lfc, showFile := sf }
        repoPath cfg fs component
      = monorepoTagStep g repoPath cfg fs component) ∧
    (∀ commits, componentCommits g repoPath component = .ok commits →
      (semverNextVersion component.currentVersion commits).2 = false →
      monorepoTagStep g repoPath cfg fs component = (.noChange, fs)) ∧
    (∀ commits nv fs2 relDir tagName,
      componentCommits g repoPath component = .ok commits →
      semverNextVersion component.currentVersion commits = (some nv, true) →
      UpdateVersion fs component nv cfg = .ok fs2 →
      filepathRel repoPath component.rootPath = .ok relDir →
      g.tagForComponent nv relDir = .ok tagName →
      monorepoTagStep g repoPath cfg fs component
        = (.tagged nv tagName, fs2)) := by
  refine ⟨?_, fun lfc sf => rfl, ?_, ?_⟩
  · intro relDir hrelD
    unfold componentCommits
    simp only [hrelD]
  · intro commits hcc hflag
    unfold monorepoTagStep
    simp only [hcc]
    unfold MonorepoProcessorImpl.NextVersion
    rcases hsv : semverNextVersion component.currentVersion commits
      with ⟨nxt, flag⟩
    rw [hsv] at hflag
    simp only at hflag
    subst hflag
    rfl
  · intro commits nv fs2 relDir tagName hcc hsv hupd hrelD htagc
    unfold monorepoTagStep
    simp only [hcc]
    unfold MonorepoProcessorImpl.NextVersion
    simp only [hsv, hupd, hrelD, htagc]

/-- Witness for C10: with no component tag, the tag flow bumps from the
current on-disk version over all subtree commits, writes the file and
creates the tag. -/
theorem claim_C10_tag_flow_no_anchor_witness :
    monorepoTagStep
      ⟨fun _ => "", fun _ => .ok [⟨"c1", .minorCat⟩], fun _ => "abc",
        fun _ _ => .error "unused", fun _ _ => .ok "svc/v1.1.0"⟩
      "repo" ⟨"*", "version"⟩
      [("repo/svc/ver.yaml", .wellFormed [("version", .str "1.0.0")])]
      ⟨"svc", "repo/svc", "repo/svc/ver.yaml",
        some ⟨1, 0, 0, "", "", "1.0.0"⟩⟩
      = (.tagged ⟨1, 1, 0, "", "", "1.1.0"⟩ "svc/v1.1.0",
        [("repo/svc/ver.yaml", .wellFormed [("version", .str "1.1.0")])]) :=
  (claim_C10_tag_flow_no_anchor
    ⟨fun _ => "", fun _ => .ok [⟨"c1", .minorCat⟩], fun _ => "abc",
      fun _ _ => .error "unused", fun _ _ => .ok "svc/v1.1.0"⟩
    "repo" ⟨"*", "version"⟩
    [("repo/svc/ver.yaml", .wellFormed [("version", .str "1.0.0")])]
    ⟨"svc", "repo/svc", "repo/svc/ver.yaml",
      some ⟨1, 0, 0, "", "", "1.0.0"⟩⟩).2.2.2
    [⟨"c1", .minorCat⟩] ⟨1, 1, 0, "", "", "1.1.0"⟩
    [("repo/svc/ver.yaml", .wellFormed [("version", .str "1.1.0")])]
    "svc" "svc/v1.1.0" rfl rfl rfl rfl rfl

/-! ## Claim C8: Discovery is fail-fast with no partial results -/

theorem findLoop_err_of_mem (fs : Fs) (dotPath : String) :
    ∀ (ms : List String) (m : String), m ∈ ms →
    (∃ e, readVersionFromFile fs m dotPath = .error e) →
    ∃ e2, findLoop fs dotPath ms = .error e2 := by
  intro ms
  induction ms with
  | nil => intro m hm _; simp at hm
  | cons m0 rest ih =>
    intro m hm ⟨e, he⟩
    rcases List.mem_cons.mp hm with hm0 | hmr
    · subst hm0
      exact ⟨"reading version from " ++ m, by simp [findLoop, he]⟩
    · cases hr0 : readVersionFromFile fs m0 dotPath with
      | error e0 => exact ⟨"reading version from " ++ m0, by simp [findLoop, hr0]⟩
      | ok v0 =>
        obtain ⟨e2, he2⟩ := ih m hmr ⟨e, he⟩
        exact ⟨e2, by simp [findLoop, hr0, he2]⟩

theorem findLoop_ok_all (fs : Fs) (dotPath : String) :
    ∀ (ms : List String) (comps : List MonorepoComponent),
    findLoop fs dotPath ms = .ok comps →
    (∀ m ∈ ms, ∃ v, readVersionFromFile fs m dotPath = .ok v) ∧
    comps.length = ms.length := by
  intro ms
  induction ms with
  | nil =>
    intro comps h
    simp only [findLoop, Except.ok.injEq] at h
    subst h
    simp
  | cons m0 rest ih =>
    intro comps h
    cases hr0 : readVersionFromFile fs m0 dotPath with
    | error e0 => simp [findLoop, hr0] at h
    | ok v0 =>
      simp only [findLoop, hr0] at h
      cases hrec : findLoop fs dotPath rest with
      | error e2 => rw [hrec] at h; simp at h
      | ok comps2 =>
        rw [hrec] at h
        simp only [Except.ok.injEq] at h
        subst h
        obtain ⟨hall, hlen⟩ := ih comps2 hrec
        refine ⟨?_, by simp [hlen]⟩
        intro m hm
        rcases List.mem_cons.mp hm with hm0 | hmr
        · exact hm0 ▸ ⟨v0, hr0⟩
        · exact hall m hmr

/-- C8: `FindComponents` fails on an uncompilable glob and on zero
matches; and if reading the version of any single match fails, the
whole discovery fails — it never returns the components that
succeeded; a successful result accounts for every match. -/
theorem claim_C8_discovery_fail_fast (globResult : Except String (List String))
    (fs : Fs) (cfg : MonorepoConfig) (hvf : cfg.versioningFile ≠ "") :
    (∀ e, globResult = .error e →
      FindComponents globResult fs cfg
        = .error "invalid versioning-file glob") ∧
    (globResult = .ok [] →
      FindComponents globResult fs cfg
        = .error "no files matched versioning-file pattern") ∧
    (∀ ms m e, globResult = .ok ms → m ∈ ms →
      readVersionFromFile fs m cfg.path = .error e →
      ∃ e2, FindComponents globResult fs cfg = .error e2) ∧
    (∀ ms comps, globResult = .ok ms →
      FindComponents globResult fs cfg = .ok comps →
      (∀ m ∈ ms, ∃ v, readVersionFromFile fs m cfg.path = .ok v) ∧
      comps.length = ms.length) := by
  refine ⟨?_, ?_, ?_, ?_⟩
  · intro e hg
    unfold FindComponents
    rw [if_neg hvf]
    simp [hg]
  · intro hg
    unfold FindComponents
    rw [if_neg hvf]
    simp [hg]
  · intro ms m e hg hm hr
    obtain ⟨e2, he2⟩ := findLoop_err_of_mem fs cfg.path ms m hm ⟨e, hr⟩
    refine ⟨e2, ?_⟩
    unfold FindComponents
    rw [if_neg hvf]
    simp only [hg]
    rw [if_neg (by simpa using List.ne_nil_of_mem hm), he2]
  · intro ms comps hg hok
    unfold FindComponents at hok
    rw [if_neg hvf] at hok
    simp only [hg] at hok
    by_cases hms : ms.isEmpty
    · rw [if_pos hms] at hok
      simp at hok
    · rw [if_neg hms] at hok
      exact findLoop_ok_all fs cfg.path ms comps hok

/-- Witness for C8: one malformed document among three matches makes
discovery fail as a whole. -/
theorem claim_C8_discovery_fail_fast_witness :
    readVersionFromFile
      [("f1.yaml", .wellFormed [("version", .str "1.0.0")]),
        ("f2.yaml", .malformed),
        ("f3.yaml", .wellFormed [("version", .str "2.0.0")])]
      "f2.yaml" "version" = .error "parse error" ∧
    ∃ e2, FindComponents (.ok ["f1.yaml", "f2.yaml", "f3.yaml"])
      [("f1.yaml", .wellFormed [("version", .str "1.0.0")]),
        ("f2.yaml", .malformed),
        ("f3.yaml", .wellFormed [("version", .str "2.0.0")])]
      ⟨"*/f.yaml", "version"⟩ = .error e2 :=
  ⟨rfl,
    (claim_C8_discovery_fail_fast (.ok ["f1.yaml", "f2.yaml", "f3.yaml"])
      [("f1.yaml", .wellFormed [("version", .str "1.0.0")]),
        ("f2.yaml", .malformed),
        ("f3.yaml", .wellFormed [("version", .str "2.0.0")])]
      ⟨"*/f.yaml", "version"⟩ (by decide)).2.2.1
      ["f1.yaml", "f2.yaml", "f3.yaml"] "f2.yaml" "parse error" rfl
      (by simp) rfl⟩

/-! ## Claim C4: End-to-end idempotent scenario -/

/-- The repository-history collaborator for the `alpha` scenario: no
component tags, one commit `abc123` touching the versioning document
(whose snapshot records version 1.0.0), and two later patch commits on
the `alpha/` subtree. -/
def alphaGit : Git where
  lastComponentTag := fun _ => ""
  log := fun lr =>
    if lr = ⟨.hashRange, "abc123", "", ["alpha"]⟩ then
      .ok [⟨"c1", .patchCat⟩, ⟨"c2", .patchCat⟩]
    else .ok []
  lastFileCommit := fun f => if f = "alpha/ver.yaml" then "abc123" else ""
  showFile := fun commit f =>
    if commit = "abc123" && f = "alpha/ver.yaml" then
      .ok (.wellFormed [("version", .str "1.0.0")])
    else .error "no such file"
  tagForComponent := fun _ _ => .error "unused"

/-- On-disk state of the `alpha` scenario before the bump: the
versioning document records 1.0.0. -/
def alphaFs0 : Fs :=
  [("repo/alpha/ver.yaml", .wellFormed [("version", .str "1.0.0")])]

/-- On-disk state of the `alpha` scenario after the bump: the
versioning document records 1.0.1. -/
def alphaFs1 : Fs :=
  [("repo/alpha/ver.yaml", .wellFormed [("version", .str "1.0.1")])]

/-- C4: for component `alpha` at 1.0.0 with no tags, one prior commit
to its versioning document recording 1.0.0, and two subsequent patch
commits on `alpha/`, the update flow computes 1.0.1, reports a change
and writes it; re-running the identical flow on the written state
without new commits computes 1.0.1 again but skips the write
(`alreadyAt`), leaving the state unchanged — the outcome is stable. -/
theorem claim_C4_end_to_end_idempotent :
    monorepoUpdateVersionHandler alphaGit (.ok ["repo/alpha/ver.yaml"])
      "repo" ⟨"*/ver.yaml", "version"⟩ alphaFs0
      = .ok ([.wrote ⟨1, 0, 1, "", "", "1.0.1"⟩], alphaFs1) ∧
    monorepoUpdateVersionHandler alphaGit (.ok ["repo/alpha/ver.yaml"])
      "repo" ⟨"*/ver.yaml", "version"⟩ alphaFs1
      = .ok ([.alreadyAt], alphaFs1) :=
  ⟨rfl, rfl⟩

end SvGit
